import Mathlib

/-!
A shallow embedding of `find_10k.py` (ValueFinder): a batch tool that, for a
list of stock tickers, resolves each ticker to a CIK identifier, locates the
most recent annual filing in the company's filing history, and downloads the
filing document plus a metadata sidecar.

Python strings are modelled as Lean `String`; machine-level effects (HTTP
requests, the filesystem) are modelled explicitly: an `Env` record supplies
the responses of the three upstream endpoints, the filesystem is a list of
existing paths, and every function returns the list of URLs it requested.
-/

namespace ValueFinder

/-- The whitespace characters recognised by the model (ASCII whitespace, the
common core of Python's `str.strip` and the regex class for whitespace). -/
def isPySpace (c : Char) : Bool :=
  c = ' ' || c = '\t' || c = '\n' || c = '\r' || c = '\x0b' || c = '\x0c'

/-- Strip leading and trailing whitespace from a character list. -/
def stripChars (l : List Char) : List Char :=
  ((l.dropWhile isPySpace).reverse.dropWhile isPySpace).reverse

/-- Model of Python `str.strip()` (restricted to ASCII whitespace). -/
def pyStrip (s : String) : String := ⟨stripChars s.data⟩

/-- Model of Python `str.upper()` (ASCII case mapping). -/
def pyUpper (s : String) : String := ⟨s.data.map Char.toUpper⟩

/-- Characters that are delimiters for the ticker-splitting regex
(comma or whitespace). -/
def isDelim (c : Char) : Bool := c = ',' || isPySpace c

mutual

/-- Part of the model of splitting on runs of delimiters: currently inside a
token whose (reversed) prefix is `cur`. -/
def splitTok (cur : List Char) : List Char → List (List Char)
  | [] => [cur.reverse]
  | c :: cs => if isDelim c then cur.reverse :: splitGap cs else splitTok (c :: cur) cs

/-- Part of the model of splitting on runs of delimiters: just consumed one or
more delimiter characters. -/
def splitGap : List Char → List (List Char)
  | [] => [[]]
  | c :: cs => if isDelim c then splitGap cs else splitTok [c] cs

end

/-- Model of the regex split on runs of commas/whitespace applied in
`_normalize_tickers` to a string input. -/
def splitDelims (s : String) : List String :=
  (splitTok [] s.data).map fun l => ⟨l⟩

/-- The two shapes the ticker argument may take in the Python code:
a single delimited string or a list of strings. -/
inductive TickersInput where
  | str (s : String)
  | list (l : List String)

/-- The token list `tickers_list` built by `_normalize_tickers` before
deduplication: a string is stripped and split on comma/whitespace runs with
empty tokens discarded; a collection has each element stripped with empty
results discarded. -/
def tokensOf : TickersInput → List String
  | .str s => (splitDelims (pyStrip s)).filter (fun t => t ≠ "")
  | .list l => (l.map pyStrip).filter (fun t => t ≠ "")

/-- The deduplication loop of `_normalize_tickers`: `seen` is the set of
upper-cased tickers already emitted. -/
def dedupAux (seen : List String) : List String → List String
  | [] => []
  | t :: ts =>
    let u := pyUpper t
    if u ∈ seen then dedupAux seen ts
    else u :: dedupAux (u :: seen) ts

/-- Model of `_normalize_tickers`. -/
def normalizeTickers (tickers : TickersInput) : List String :=
  dedupAux [] (tokensOf tickers)

/-- Little-endian decimal digits of `n`, with explicit fuel so that the
definition is structural (the fuel `n` itself always suffices). -/
def decDigitsAux : Nat → Nat → List Nat
  | 0, _ => []
  | fuel + 1, n => if n = 0 then [] else (n % 10) :: decDigitsAux fuel (n / 10)

/-- Little-endian decimal digits of `n` (agrees with `Nat.digits 10`). -/
def decDigits (n : Nat) : List Nat := decDigitsAux n n

/-- Model of Python `str(i)` for a non-negative integer: the decimal digit
string, most significant digit first. -/
def pyStrNat (n : Nat) : String :=
  if n = 0 then "0" else ⟨((decDigits n).reverse.map Nat.digitChar)⟩

/-- Model of Python `str.zfill(w)` on an unsigned digit string: left-pad with
zeros up to width `w` (a longer string is returned unchanged). -/
def zfill (w : Nat) (s : String) : String :=
  ⟨List.replicate (w - s.length) '0' ++ s.data⟩

/-- Model of Python `int(s)` on a decimal digit string. -/
def pyInt (s : String) : Nat :=
  s.data.foldl (fun n c => n * 10 + (c.toNat - 48)) 0

/-- The error kinds that `find_10k.py` can raise while processing one ticker.

`transport` stands for a `requests` HTTP failure (`raise_for_status` on a
non-2xx response or a network error), carrying the URL that failed;
`notFound` and `noAnnualFiling` are the two explicit `ValueError` raises;
`invalidKind` is the `ValueError` for an unrecognised download kind;
`indexError` is the `IndexError` from indexing a companion array that is
shorter than the `form` array. -/
inductive Err where
  | transport (url : String)
  | notFound (ticker : String)
  | noAnnualFiling (cik10 : String)
  | invalidKind
  | indexError
deriving DecidableEq, Repr

/-- Model of Python `str(e)` on the exceptions of `find_10k.py`. The two
explicit `ValueError` messages are taken verbatim from the source; the
transport and index-error texts model the corresponding library messages. -/
def errStr : Err → String
  | .transport url => "HTTP error for url: " ++ url
  | .notFound ticker => "Ticker not found in SEC mapping: " ++ ticker
  | .noAnnualFiling cik10 =>
      "No annual filing found (tried (\x2710-K\x27, \x2720-F\x27, \x2740-F\x27, \x2710-K/A\x27, \x2720-F/A\x27)) for CIK " ++ cik10
  | .invalidKind => "kind must be \x27primary_html\x27 or \x27full_submission_zip\x27"
  | .indexError => "list index out of range"

/-- One record of the SEC ticker registry (`company_tickers.json`): each JSON
value carries a ticker symbol and an integer CIK. -/
structure TickerRow where
  ticker : String
  cik_str : Nat
deriving DecidableEq, Repr

/-- The `filings.recent` section of a company submissions document, plus the
top-level company name: parallel arrays in the upstream (most-recent-first)
order. Each list models `recent.get(key, [])`, so a missing key yields the
empty list. -/
structure Submission where
  name : String
  forms : List String
  accessionNumbers : List String
  primaryDocs : List String
  filingDates : List String
deriving DecidableEq, Repr

/-- The record returned by `get_latest_annual_info`. -/
structure FilingInfo where
  companyName : String
  cik10 : String
  form : String
  accession : String
  primaryDocument : String
  filingDate : String
deriving DecidableEq, Repr

/-- The upstream world: the outcome of each of the three SEC endpoints.
An `Except.error ()` outcome models an HTTP-layer failure (non-2xx status or
network error) for that request; `expanduser` models `os.path.expanduser`. -/
structure Env where
  registryResp : Except Unit (List TickerRow)
  submissionsResp : String → Except Unit Submission
  docResp : String → Except Unit (List Nat)
  expanduser : String → String

/-- URL of the ticker registry endpoint. -/
def registryUrl : String := "https://www.sec.gov/files/company_tickers.json"

/-- URL of the company submissions endpoint for a 10-digit CIK. -/
def submissionsUrl (cik10 : String) : String :=
  "https://data.sec.gov/submissions/CIK" ++ cik10 ++ ".json"

/-- The linear scan of `get_cik_from_ticker` over the registry records in
their given order, `t` being the already stripped-and-uppercased ticker. -/
def scanRegistry (t : String) : List TickerRow → Option Nat
  | [] => none
  | r :: rs => if pyUpper r.ticker = t then some r.cik_str else scanRegistry t rs

/-- Model of `get_cik_from_ticker`: fetch the registry, scan for a
case-insensitive exact ticker match, return the CIK zero-filled to 10 digits.
The second component is the list of URLs requested. -/
def get_cik_from_ticker (env : Env) (ticker : String) :
    Except Err String × List String :=
  match env.registryResp with
  | .error _ => (.error (.transport registryUrl), [registryUrl])
  | .ok rows =>
    let t := pyUpper (pyStrip ticker)
    match scanRegistry t rows with
    | some cik => (.ok (zfill 10 (pyStrNat cik)), [registryUrl])
    | none => (.error (.notFound ticker), [registryUrl])

/-- The default `preferred_forms` tuple of `get_latest_annual_info`. -/
def defaultPreferred : List String := ["10-K", "20-F", "40-F", "10-K/A", "20-F/A"]

/-- The inner loop of `get_latest_annual_info`: the index of the first entry
of `forms` equal to `want`, in the given order. -/
def firstIdx (want : String) : List String → Option Nat
  | [] => none
  | f :: fs => if f = want then some 0 else (firstIdx want fs).map (· + 1)

/-- The nested loops of `get_latest_annual_info`: for each preferred form in
order, scan the forms array; return the first preferred form present together
with the index of its first occurrence. -/
def selectPreferred (forms : List String) : List String → Option (String × Nat)
  | [] => none
  | w :: ws =>
    match firstIdx w forms with
    | some i => some (w, i)
    | none => selectPreferred forms ws

/-- Model of `get_latest_annual_info`: fetch the submissions document for the
CIK, then return the first occurrence of the earliest preferred form type,
bundling the companion-array entries at that index. Indexing a companion
array out of range models Python's `IndexError`. The second component is the
list of URLs requested. -/
def get_latest_annual_info (env : Env) (cik10 : String)
    (preferred : List String := defaultPreferred) :
    Except Err FilingInfo × List String :=
  let url := submissionsUrl cik10
  match env.submissionsResp cik10 with
  | .error _ => (.error (.transport url), [url])
  | .ok sub =>
    match selectPreferred sub.forms preferred with
    | none => (.error (.noAnnualFiling cik10), [url])
    | some (w, i) =>
      match sub.accessionNumbers.get? i, sub.primaryDocs.get? i,
          sub.filingDates.get? i with
      | some acc, some doc, some fd =>
        (.ok ⟨sub.name, cik10, w, acc, doc, fd⟩, [url])
      | _, _, _ => (.error .indexError, [url])

/-- Index of the last occurrence of `c` in `l`, or `-1` when absent
(model of Python `str.rfind`). -/
def pyRfind (c : Char) (l : List Char) : Int :=
  match l.reverse.findIdx? (· = c) with
  | none => -1
  | some j => (l.length : Int) - 1 - j

/-- Model of `os.path.splitext` (POSIX flavour): split at the last dot,
provided it comes after the last slash and the basename does not consist
solely of leading dots up to it. -/
def splitext (path : String) : String × String :=
  let l := path.data
  let sepIndex := pyRfind '/' l
  let dotIndex := pyRfind '.' l
  if sepIndex < dotIndex then
    let between := (l.drop (sepIndex + 1).toNat).take (dotIndex - sepIndex - 1).toNat
    if between.any (fun c => c ≠ '.') then
      (⟨l.take dotIndex.toNat⟩, ⟨l.drop dotIndex.toNat⟩)
    else (path, "")
  else (path, "")

/-- The characters replaced by `_safe_filename` (the filename-illegal set). -/
def isBadChar (c : Char) : Bool :=
  c = '\\' || c = '/' || c = '*' || c = '?' || c = ':' || c = '\"' ||
  c = '<' || c = '>' || c = '|'

/-- Substitution applied to one character by the first regex of
`_safe_filename`. -/
def subBad (c : Char) : Char := if isBadChar c then '_' else c

/-- Model of the regex that collapses each maximal whitespace run to a single
space: `prevWs` records whether the previous input character was part of a
whitespace run already emitted. -/
def collapseWsAux (prevWs : Bool) : List Char → List Char
  | [] => []
  | c :: cs =>
    if isPySpace c then
      if prevWs then collapseWsAux true cs
      else ' ' :: collapseWsAux true cs
    else c :: collapseWsAux false cs

/-- Model of `_safe_filename`: replace filename-illegal characters with
underscores, collapse whitespace runs to single spaces, strip the ends. -/
def safeFilename (s : String) : String :=
  ⟨stripChars (collapseWsAux false (s.data.map subBad))⟩

/-- No two adjacent whitespace characters (the shape of `_safe_filename`
output, where every whitespace run has been collapsed). -/
def noWsPair (a b : Char) : Prop := ¬(isPySpace a = true ∧ isPySpace b = true)

/-- `os.path.join` for two components (POSIX, second component relative). -/
def pyJoin (a b : String) : String :=
  if a = "" then b
  else if a.data.getLast? = some '/' then a ++ b
  else a ++ "/" ++ b

/-- The candidate built by the collision loop of `_unique_path`:
`f"{base}_{i}{ext}"`. -/
def candPath (base ext : String) (i : Nat) : String :=
  base ++ "_" ++ pyStrNat i ++ ext

/-- The collision loop of `_unique_path`, fuelled: try `candPath base ext i`,
then `i+1`, and so on. The Python loop is unbounded; the fuel is a proof
device, and `uniquePath` supplies enough fuel for the loop to always find a
free candidate when the set of existing paths is finite. -/
def uniqueLoop (fsys : List String) (base ext : String) (i : Nat) : Nat → String
  | 0 => candPath base ext i
  | fuel + 1 =>
    let cand := candPath base ext i
    if cand ∈ fsys then uniqueLoop fsys base ext (i + 1) fuel else cand

/-- Model of `_unique_path` over a finite filesystem `fsys` (the list of
existing paths): return `path` if free, else the first free
`base_i.ext` for `i = 1, 2, …`. -/
def uniquePath (fsys : List String) (path : String) : String :=
  if path ∈ fsys then
    uniqueLoop fsys (splitext path).1 (splitext path).2 1 (fsys.length + 1)
  else path

/-- Model of `download_latest_10k` over the environment `env` and the finite
filesystem `fsys`. The result is the triple
(outcome, URLs requested in order, filesystem afterwards); the outcome on
success is the saved document path. The `time.sleep` call has no observable
effect in this model, so the `sleep_sec` parameter is not modelled. -/
def download_latest_10k (env : Env) (fsys : List String)
    (ticker save_folder : String) (kind : String := "primary_html")
    (make_subfolder_per_ticker : Bool := true) :
    Except Err String × List String × List String :=
  let t := pyUpper (pyStrip ticker)
  let folder0 := env.expanduser save_folder
  let folder := if make_subfolder_per_ticker then pyJoin folder0 t else folder0
  let fs1 := folder :: fsys
  match get_cik_from_ticker env t with
  | (.error e, reqs) => (.error e, reqs, fs1)
  | (.ok cik10, reqs1) =>
    match get_latest_annual_info env cik10 with
    | (.error e, reqs2) => (.error e, reqs1 ++ reqs2, fs1)
    | (.ok info, reqs2) =>
      let accNoDashes : String := ⟨info.accession.data.filter (fun c => c ≠ '-')⟩
      let cikNoZeros := pyStrNat (pyInt cik10)
      let base_dir :=
        "https://www.sec.gov/Archives/edgar/data/" ++ cikNoZeros ++ "/" ++
          accNoDashes ++ "/"
      let sel : Except Err (String × String) :=
        if kind = "primary_html" then
          let ext0 := (splitext info.primaryDocument).2
          let ext := if ext0 = "" then ".html" else ext0
          .ok (base_dir ++ info.primaryDocument,
            safeFilename (t ++ "_10-K_" ++ info.filingDate ++ ext))
        else if kind = "full_submission_zip" then
          .ok (base_dir ++ accNoDashes ++ ".zip",
            safeFilename (t ++ "_10-K_" ++ info.filingDate ++ ".zip"))
        else .error .invalidKind
      match sel with
      | .error e => (.error e, reqs1 ++ reqs2, fs1)
      | .ok (url, filename) =>
        let out_path := uniquePath fs1 (pyJoin folder filename)
        match env.docResp url with
        | .error _ => (.error (.transport url), reqs1 ++ reqs2 ++ [url], fs1)
        | .ok _ =>
          let fs2 := out_path :: fs1
          let meta_path := uniquePath fs2 (pyJoin folder
            (safeFilename (t ++ "_10-K_" ++ info.filingDate ++ "_meta.json")))
          (.ok out_path, reqs1 ++ reqs2 ++ [url], meta_path :: fs2)

/-- The aggregate result of `batch_download_10k`: insertion-ordered maps from
ticker to saved path and from ticker to error message. -/
structure BatchResult where
  saved : List (String × String)
  failed : List (String × String)
deriving DecidableEq, Repr

/-- The per-ticker loop of `batch_download_10k`: process tickers in order,
threading the filesystem, recording each success under `saved` and each
caught exception's string description under `failed`. -/
def batchGo (env : Env) (save_folder kind : String) (make_sub : Bool) :
    List String → List String → BatchResult → BatchResult × List String
  | [], fsys, acc => (acc, fsys)
  | t :: ts, fsys, acc =>
    match download_latest_10k env fsys t save_folder kind make_sub with
    | (.ok path, _, fs2) =>
      batchGo env save_folder kind make_sub ts fs2
        ⟨acc.saved ++ [(t, path)], acc.failed⟩
    | (.error e, _, fs2) =>
      batchGo env save_folder kind make_sub ts fs2
        ⟨acc.saved, acc.failed ++ [(t, errStr e)]⟩

/-- Model of `batch_download_10k`: normalize the tickers, then run the
per-ticker loop starting from empty `saved`/`failed` maps. -/
def batch_download_10k (env : Env) (fsys : List String) (tickers : TickersInput)
    (save_folder : String) (kind : String := "primary_html")
    (make_subfolder_per_ticker : Bool := true) : BatchResult × List String :=
  batchGo env save_folder kind make_subfolder_per_ticker
    (normalizeTickers tickers) fsys ⟨[], []⟩

/-- Specification-level companion of the normalizer's deduplication,
following the spec's words: keep each distinct element exactly once, in
order of first occurrence. -/
def firstOccurrences : List String → List String
  | [] => []
  | x :: xs => x :: firstOccurrences (xs.filter (fun y => y ≠ x))
termination_by l => l.length
decreasing_by
  simp only [List.length_cons]
  exact Nat.lt_succ_of_le (List.length_filter_le _ _)

/-- A submissions document exercising the tie-break rule: the newest filing
is a 10-K/A amendment, the older one an original 10-K. -/
def subTie : Submission :=
  ⟨"NVIDIA CORP", ["10-K/A", "10-K"],
    ["0001045810-24-000002", "0001045810-24-000001"],
    ["nvda-amend.htm", "nvda-10k.htm"], ["2024-03-01", "2024-02-21"]⟩

/-- A concrete environment for witnesses: a two-entry registry and the
tie-break submissions document for NVDA's CIK. -/
def envTie : Env where
  registryResp := .ok [⟨"NVDA", 1045810⟩, ⟨"msft", 789019⟩]
  submissionsResp := fun c => if c = "0001045810" then .ok subTie else .error ()
  docResp := fun _ => .ok [0]
  expanduser := id

/-- A submissions document whose companion arrays are shorter than the form
array (as happens when `filings.recent` lacks those keys, each defaulting to
`[]`). -/
def subShort : Submission := ⟨"SHORTCO", ["10-K"], [], [], []⟩

/-- An environment serving `subShort`, with an empty ticker registry. -/
def envShort : Env where
  registryResp := .ok []
  submissionsResp := fun c => if c = "0000000001" then .ok subShort else .error ()
  docResp := fun _ => .error ()
  expanduser := id

/-- A second short-array submissions document: the form array has two
entries but only one accession number. -/
def subShort2 : Submission := ⟨"SHORTCO2", ["8-K", "20-F"], ["0000000002-24-000001"], [], []⟩

/-- An environment serving `subShort2`. -/
def envShort2 : Env where
  registryResp := .ok [⟨"SH2", 2⟩]
  submissionsResp := fun c => if c = "0000000002" then .ok subShort2 else .error ()
  docResp := fun _ => .ok [0]
  expanduser := id

/-! ### Character-level lemmas -/

lemma char_toNat_inj {c d : Char} (h : c.toNat = d.toNat) : c = d :=
  Char.eq_of_val_eq (UInt32.toNat.inj h)

lemma char_eq_iff_toNat {c d : Char} : c = d ↔ c.toNat = d.toNat :=
  ⟨fun h => h ▸ rfl, char_toNat_inj⟩

lemma toNat_ofNat_valid {n : Nat} (h : n < 55296) : (Char.ofNat n).toNat = n := by
  have hv : n.isValidChar := Or.inl h
  simp [Char.ofNat, hv, Char.ofNatAux, Char.toNat, UInt32.toNat]

lemma toUpper_of_not_lower {c : Char} (h : ¬(97 ≤ c.toNat ∧ c.toNat ≤ 122)) :
    c.toUpper = c := by
  simp only [Char.toUpper]
  rw [if_neg h]

lemma toUpper_toNat_of_lower {c : Char} (h : 97 ≤ c.toNat ∧ c.toNat ≤ 122) :
    c.toUpper.toNat = c.toNat - 32 := by
  simp only [Char.toUpper]
  rw [if_pos h]
  exact toNat_ofNat_valid (by omega)

lemma toUpper_toUpper (c : Char) : c.toUpper.toUpper = c.toUpper := by
  by_cases h : 97 ≤ c.toNat ∧ c.toNat ≤ 122
  · exact toUpper_of_not_lower (by rw [toUpper_toNat_of_lower h]; omega)
  · rw [toUpper_of_not_lower h, toUpper_of_not_lower h]

lemma isPySpace_cases {c : Char} (h : isPySpace c = true) :
    c = ' ' ∨ c = '\t' ∨ c = '\n' ∨ c = '\r' ∨ c = '\x0b' ∨ c = '\x0c' := by
  simp [isPySpace] at h
  tauto

lemma toNat_of_isPySpace {c : Char} (h : isPySpace c = true) : c.toNat ≤ 32 := by
  rcases isPySpace_cases h with h | h | h | h | h | h <;> subst h <;> decide

lemma isPySpace_toUpper (c : Char) : isPySpace c.toUpper = isPySpace c := by
  by_cases h : 97 ≤ c.toNat ∧ c.toNat ≤ 122
  · have h1 := toUpper_toNat_of_lower h
    have h2 : isPySpace c = false := by
      cases hb : isPySpace c
      · rfl
      · exact absurd (toNat_of_isPySpace hb) (by omega)
    have h3 : isPySpace c.toUpper = false := by
      cases hb : isPySpace c.toUpper
      · rfl
      · exact absurd (toNat_of_isPySpace hb) (by omega)
    rw [h2, h3]
  · rw [toUpper_of_not_lower h]

/-! ### dropWhile and strip lemmas -/

lemma dropWhile_noLead {α : Type} (p : α → Bool) (l : List α) :
    ∀ c, (l.dropWhile p).head? = some c → p c = false := by
  induction l with
  | nil => intro c h; simp [List.dropWhile] at h
  | cons a l ih =>
    intro c h
    by_cases hp : p a
    · rw [List.dropWhile_cons_of_pos hp] at h
      exact ih c h
    · rw [List.dropWhile_cons_of_neg hp] at h
      simp at h
      subst h
      simpa using hp

lemma dropWhile_eq_self_of_noLead {α : Type} (p : α → Bool) (l : List α)
    (h : ∀ c, l.head? = some c → p c = false) : l.dropWhile p = l := by
  cases l with
  | nil => rfl
  | cons a l =>
    have := h a (by simp)
    simp [List.dropWhile, this]

lemma dropWhile_map_toUpper (l : List Char) :
    (l.map Char.toUpper).dropWhile isPySpace =
      (l.dropWhile isPySpace).map Char.toUpper := by
  induction l with
  | nil => rfl
  | cons c cs ih =>
    by_cases hc : isPySpace c
    · rw [List.map_cons, List.dropWhile_cons_of_pos (by rw [isPySpace_toUpper]; exact hc),
        List.dropWhile_cons_of_pos hc, ih]
    · rw [List.map_cons, List.dropWhile_cons_of_neg (by rw [isPySpace_toUpper]; exact hc),
        List.dropWhile_cons_of_neg hc, List.map_cons]

lemma stripChars_map_toUpper (l : List Char) :
    stripChars (l.map Char.toUpper) = (stripChars l).map Char.toUpper := by
  unfold stripChars
  rw [dropWhile_map_toUpper, ← List.map_reverse, dropWhile_map_toUpper, ← List.map_reverse]

lemma stripChars_noLead (l : List Char) :
    ∀ c, (stripChars l).head? = some c → isPySpace c = false := by
  intro c h
  unfold stripChars at h
  set A := l.dropWhile isPySpace with hA
  set B := A.reverse.dropWhile isPySpace with hB
  have hdecomp : A.reverse.takeWhile isPySpace ++ B = A.reverse := by
    rw [hB]
    exact List.takeWhile_append_dropWhile isPySpace A.reverse
  have hA2 : A = B.reverse ++ (A.reverse.takeWhile isPySpace).reverse := by
    have := congrArg List.reverse hdecomp
    simpa using this.symm
  cases hBr : B.reverse with
  | nil => rw [hBr] at h; simp at h
  | cons x xs =>
    rw [hBr] at h
    simp at h
    rw [← h]
    apply dropWhile_noLead isPySpace l x
    rw [← hA, hA2, hBr]
    simp

lemma stripChars_noTrail (l : List Char) :
    ∀ c, (stripChars l).reverse.head? = some c → isPySpace c = false := by
  intro c h
  unfold stripChars at h
  rw [List.reverse_reverse] at h
  exact dropWhile_noLead isPySpace _ c h

lemma stripChars_stripChars (l : List Char) :
    stripChars (stripChars l) = stripChars l := by
  have h1 : (stripChars l).dropWhile isPySpace = stripChars l :=
    dropWhile_eq_self_of_noLead _ _ (stripChars_noLead l)
  have h2 : (stripChars l).reverse.dropWhile isPySpace = (stripChars l).reverse :=
    dropWhile_eq_self_of_noLead _ _ (stripChars_noTrail l)
  show ((((stripChars l).dropWhile isPySpace).reverse.dropWhile isPySpace)).reverse
      = stripChars l
  rw [h1, h2, List.reverse_reverse]

/-! ### String-level lemmas about pyUpper and pyStrip -/

lemma pyUpper_pyUpper (s : String) : pyUpper (pyUpper s) = pyUpper s := by
  apply String.ext
  show (s.data.map Char.toUpper).map Char.toUpper = s.data.map Char.toUpper
  rw [List.map_map]
  exact List.map_congr_left (fun c _ => toUpper_toUpper c)

lemma pyStrip_pyUpper (s : String) : pyStrip (pyUpper s) = pyUpper (pyStrip s) := by
  apply String.ext
  show stripChars (s.data.map Char.toUpper) = (stripChars s.data).map Char.toUpper
  exact stripChars_map_toUpper s.data

lemma pyStrip_pyStrip (s : String) : pyStrip (pyStrip s) = pyStrip s := by
  apply String.ext
  exact stripChars_stripChars s.data

/-- The ticker normalization applied at the top of `download_latest_10k`
(`ticker.strip().upper()`) is idempotent. -/
lemma normTicker_idem (t : String) :
    pyUpper (pyStrip (pyUpper (pyStrip t))) = pyUpper (pyStrip t) := by
  rw [pyStrip_pyUpper, pyUpper_pyUpper, pyStrip_pyStrip]

/-! ### Decimal rendering lemmas -/

lemma decDigitsAux_eq (fuel : Nat) :
    ∀ n, n ≤ fuel → decDigitsAux fuel n = Nat.digits 10 n := by
  induction fuel with
  | zero =>
    intro n h
    have : n = 0 := Nat.le_zero.mp h
    subst this
    simp [decDigitsAux]
  | succ fuel ih =>
    intro n h
    cases n with
    | zero => simp [decDigitsAux]
    | succ m =>
      have hd : Nat.digits 10 (m + 1) =
          ((m + 1) % 10) :: Nat.digits 10 ((m + 1) / 10) :=
        Nat.digits_of_two_le_of_pos (by norm_num) (Nat.succ_pos m)
      have hlt : (m + 1) / 10 < m + 1 := Nat.div_lt_self (Nat.succ_pos m) (by norm_num)
      rw [decDigitsAux, if_neg (Nat.succ_ne_zero m), ih ((m + 1) / 10) (by omega), hd]

lemma decDigits_eq_digits (n : Nat) : decDigits n = Nat.digits 10 n :=
  decDigitsAux_eq n n le_rfl

lemma digitChar_inj_lt {a b : Nat} (ha : a < 10) (hb : b < 10)
    (h : Nat.digitChar a = Nat.digitChar b) : a = b := by
  have hfin : ∀ x : Fin 10, ∀ y : Fin 10,
      Nat.digitChar x.val = Nat.digitChar y.val → x.val = y.val := by decide
  exact hfin ⟨a, ha⟩ ⟨b, hb⟩ h

lemma map_digitChar_inj : ∀ {l1 l2 : List Nat}, (∀ d ∈ l1, d < 10) →
    (∀ d ∈ l2, d < 10) → l1.map Nat.digitChar = l2.map Nat.digitChar → l1 = l2 := by
  intro l1
  induction l1 with
  | nil =>
    intro l2 _ _ h
    cases l2 with
    | nil => rfl
    | cons b m => simp at h
  | cons a l ih =>
    intro l2 h1 h2 h
    cases l2 with
    | nil => simp at h
    | cons b m =>
      simp only [List.map_cons, List.cons.injEq] at h
      have hab := digitChar_inj_lt (h1 a (by simp)) (h2 b (by simp)) h.1
      rw [hab, ih (fun d hd => h1 d (by simp [hd])) (fun d hd => h2 d (by simp [hd])) h.2]

lemma decDigits_lt_10 {n : Nat} : ∀ d ∈ decDigits n, d < 10 := by
  intro d hd
  rw [decDigits_eq_digits] at hd
  exact Nat.digits_lt_base (by norm_num) hd

lemma decDigits_inj {m n : Nat} (h : decDigits m = decDigits n) : m = n := by
  rw [decDigits_eq_digits, decDigits_eq_digits] at h
  have h2 := congrArg (Nat.ofDigits 10) h
  rwa [Nat.ofDigits_digits, Nat.ofDigits_digits] at h2

lemma map_digitChar_eq_zeroChar {l : List Nat} (hb : ∀ d ∈ l, d < 10)
    (h : l.map Nat.digitChar = ['0']) : l = [0] := by
  cases l with
  | nil => simp at h
  | cons d ds =>
    simp only [List.map_cons, List.cons.injEq] at h
    have hds : ds = [] := List.map_eq_nil_iff.mp h.2
    have hd0 : d = 0 := digitChar_inj_lt (hb d (by simp)) (by norm_num) (by rw [h.1]; rfl)
    rw [hds, hd0]

lemma pyStrNat_inj {m n : Nat} (h : pyStrNat m = pyStrNat n) : m = n := by
  unfold pyStrNat at h
  by_cases hm : m = 0 <;> by_cases hn : n = 0
  · rw [hm, hn]
  · rw [if_pos hm, if_neg hn] at h
    have hdata : ['0'] = (decDigits n).reverse.map Nat.digitChar := congrArg String.data h
    have hrev : (decDigits n).reverse = [0] :=
      map_digitChar_eq_zeroChar (fun d hd => decDigits_lt_10 d (by simpa using hd)) hdata.symm
    have hdig : Nat.digits 10 n = [0] := by
      rw [← decDigits_eq_digits]
      have := congrArg List.reverse hrev
      simpa using this
    have hn0 : n = 0 := by
      have h2 := congrArg (Nat.ofDigits 10) hdig
      rw [Nat.ofDigits_digits] at h2
      simpa [Nat.ofDigits] using h2
    exact absurd hn0 hn
  · rw [if_neg hm, if_pos hn] at h
    have hdata : ['0'] = (decDigits m).reverse.map Nat.digitChar := (congrArg String.data h).symm
    have hrev : (decDigits m).reverse = [0] :=
      map_digitChar_eq_zeroChar (fun d hd => decDigits_lt_10 d (by simpa using hd)) hdata.symm
    have hdig : Nat.digits 10 m = [0] := by
      rw [← decDigits_eq_digits]
      have := congrArg List.reverse hrev
      simpa using this
    have hm0 : m = 0 := by
      have h2 := congrArg (Nat.ofDigits 10) hdig
      rw [Nat.ofDigits_digits] at h2
      simpa [Nat.ofDigits] using h2
    exact absurd hm0 hm
  · rw [if_neg hm, if_neg hn] at h
    have hdata : (decDigits m).reverse.map Nat.digitChar =
        (decDigits n).reverse.map Nat.digitChar := congrArg String.data h
    have hrev := map_digitChar_inj
      (fun d hd => decDigits_lt_10 d (by simpa using hd))
      (fun d hd => decDigits_lt_10 d (by simpa using hd)) hdata
    exact decDigits_inj (List.reverse_injective hrev)

/-! ### Normalizer lemmas -/

lemma pyUpper_eq_empty_iff {s : String} : pyUpper s = "" ↔ s = "" := by
  constructor
  · intro h
    have hdata : s.data.map Char.toUpper = [] := congrArg String.data h
    exact String.ext (List.map_eq_nil_iff.mp hdata)
  · intro h
    subst h
    rfl

lemma mem_firstOccurrences (l : List String) (x : String) :
    x ∈ firstOccurrences l ↔ x ∈ l := by
  induction l using firstOccurrences.induct with
  | case1 => simp [firstOccurrences]
  | case2 y ys ih =>
    rw [firstOccurrences]
    by_cases hxy : x = y
    · subst hxy
      simp
    · simp only [List.mem_cons, ih, List.mem_filter]
      constructor
      · rintro (h | ⟨h, _⟩)
        · exact Or.inl h
        · exact Or.inr h
      · rintro (h | h)
        · exact Or.inl h
        · exact Or.inr ⟨h, by simpa using hxy⟩

lemma nodup_firstOccurrences (l : List String) : (firstOccurrences l).Nodup := by
  induction l using firstOccurrences.induct with
  | case1 => simp [firstOccurrences]
  | case2 y ys ih =>
    rw [firstOccurrences]
    refine List.nodup_cons.mpr ⟨?_, ih⟩
    rw [mem_firstOccurrences]
    intro hmem
    have := (List.mem_filter.mp hmem).2
    simp at this

lemma filter_ne_filter_not_mem (u : String) (seen : List String) (xs : List String) :
    (xs.filter (fun y => y ∉ seen)).filter (fun y => y ≠ u) =
      xs.filter (fun y => y ∉ u :: seen) := by
  rw [List.filter_filter]
  apply List.filter_congr
  intro x _
  by_cases h1 : x = u <;> by_cases h2 : x ∈ seen <;> simp [h1, h2]

lemma dedupAux_eq_firstOccurrences (l : List String) :
    ∀ seen, dedupAux seen l =
      firstOccurrences ((l.map pyUpper).filter (fun u => u ∉ seen)) := by
  induction l with
  | nil =>
    intro seen
    simp [dedupAux, firstOccurrences]
  | cons t ts ih =>
    intro seen
    by_cases h : pyUpper t ∈ seen
    · have hstep : dedupAux seen (t :: ts) = dedupAux seen ts := by
        simp [dedupAux, h]
      rw [List.map_cons, List.filter_cons_of_neg (by simpa using h), hstep]
      exact ih seen
    · have hstep : dedupAux seen (t :: ts) =
          pyUpper t :: dedupAux (pyUpper t :: seen) ts := by
        simp [dedupAux, h]
      rw [List.map_cons, List.filter_cons_of_pos (by simpa using h), hstep,
        firstOccurrences, ih (pyUpper t :: seen), filter_ne_filter_not_mem]

lemma normalizeTickers_eq_firstOccurrences (input : TickersInput) :
    normalizeTickers input = firstOccurrences ((tokensOf input).map pyUpper) := by
  rw [normalizeTickers, dedupAux_eq_firstOccurrences (tokensOf input) []]
  congr 1
  apply List.filter_eq_self.mpr
  intro a _
  simp

lemma tokensOf_ne_empty (input : TickersInput) : ∀ t ∈ tokensOf input, t ≠ "" := by
  intro t ht
  cases input with
  | str s =>
    have := List.mem_filter.mp ht
    simpa using this.2
  | list l =>
    have := List.mem_filter.mp ht
    simpa using this.2

/-- C6: for all inputs (a single comma/whitespace-delimited string or a
collection of strings), the Ticker Normalizer output is exactly the list of
first occurrences of the upper-cased tokens: each distinct token appears
exactly once under case-insensitive comparison, upper-cased, in order of
first occurrence, and no output token is empty. -/
theorem c6_normalizer_spec (input : TickersInput) :
    normalizeTickers input = firstOccurrences ((tokensOf input).map pyUpper) ∧
    (∀ s ∈ normalizeTickers input, s ≠ "") ∧
    (normalizeTickers input).Nodup ∧
    (∀ s ∈ normalizeTickers input, pyUpper s = s) ∧
    (∀ s, s ∈ normalizeTickers input ↔ s ∈ (tokensOf input).map pyUpper) := by
  have heq := normalizeTickers_eq_firstOccurrences input
  have hmem : ∀ s, s ∈ normalizeTickers input ↔ s ∈ (tokensOf input).map pyUpper := by
    intro s
    rw [heq, mem_firstOccurrences]
  refine ⟨heq, ?_, ?_, ?_, hmem⟩
  · intro s hs
    obtain ⟨t, ht, rfl⟩ := List.mem_map.mp ((hmem s).mp hs)
    intro hcon
    exact tokensOf_ne_empty input t ht (pyUpper_eq_empty_iff.mp hcon)
  · rw [heq]
    exact nodup_firstOccurrences _
  · intro s hs
    obtain ⟨t, _, rfl⟩ := List.mem_map.mp ((hmem s).mp hs)
    exact pyUpper_pyUpper t

/-- Witness for C6 at a concrete input mixing case, duplicates and both
delimiters. -/
theorem c6_normalizer_spec_witness :
    firstOccurrences ((tokensOf (.str "NVDA, msft nvda TSLA")).map pyUpper) =
        ["NVDA", "MSFT", "TSLA"] ∧
    "NVDA" ≠ "" ∧ pyUpper "MSFT" = "MSFT" := by
  refine ⟨?_, ?_, ?_⟩
  · rw [← (c6_normalizer_spec (.str "NVDA, msft nvda TSLA")).1]
    rfl
  · exact (c6_normalizer_spec (.str "NVDA, msft nvda TSLA")).2.1 "NVDA" (by decide)
  · exact (c6_normalizer_spec (.str "NVDA, msft nvda TSLA")).2.2.2.1 "MSFT" (by decide)

/-! ### Identifier Resolver lemmas -/

lemma scanRegistry_eq_none_iff (t : String) (rows : List TickerRow) :
    scanRegistry t rows = none ↔ ∀ r ∈ rows, pyUpper r.ticker ≠ t := by
  induction rows with
  | nil => simp [scanRegistry]
  | cons r rs ih =>
    by_cases h : pyUpper r.ticker = t
    · simp [scanRegistry, h]
    · simp [scanRegistry, h, ih]

lemma scanRegistry_first (t : String) (r : TickerRow) (post : List TickerRow) :
    ∀ pre : List TickerRow, (∀ x ∈ pre, pyUpper x.ticker ≠ t) →
      pyUpper r.ticker = t →
      scanRegistry t (pre ++ r :: post) = some r.cik_str := by
  intro pre
  induction pre with
  | nil =>
    intro _ hr
    simp [scanRegistry, hr]
  | cons x xs ih =>
    intro hpre hr
    have hx := hpre x (by simp)
    rw [List.cons_append]
    show (if pyUpper x.ticker = t then some x.cik_str else scanRegistry t (xs ++ r :: post)) = _
    rw [if_neg hx]
    exact ih (fun y hy => hpre y (by simp [hy])) hr

/-- C5: for every ticker string and every registry document, the Identifier
Resolver scans the registry records in their given order comparing
upper-cased tickers (a case-insensitive exact match, the query being stripped
first), returns the first matching record's identifier zero-padded to 10
digits, and fails with `NotFound` exactly when no record matches. -/
theorem c5_identifier_resolver (env : Env) (rows : List TickerRow)
    (ticker : String) (henv : env.registryResp = .ok rows) :
    ((get_cik_from_ticker env ticker).1 = .error (.notFound ticker) ↔
      ∀ r ∈ rows, pyUpper r.ticker ≠ pyUpper (pyStrip ticker)) ∧
    (∀ pre r post, rows = pre ++ r :: post →
      (∀ x ∈ pre, pyUpper x.ticker ≠ pyUpper (pyStrip ticker)) →
      pyUpper r.ticker = pyUpper (pyStrip ticker) →
      (get_cik_from_ticker env ticker).1 = .ok (zfill 10 (pyStrNat r.cik_str))) := by
  have hg : get_cik_from_ticker env ticker =
      (match scanRegistry (pyUpper (pyStrip ticker)) rows with
       | some cik => (.ok (zfill 10 (pyStrNat cik)), [registryUrl])
       | none => (.error (.notFound ticker), [registryUrl])) := by
    rw [get_cik_from_ticker, henv]
  constructor
  · cases hscan : scanRegistry (pyUpper (pyStrip ticker)) rows with
    | none =>
      rw [hg, hscan]
      simpa using (scanRegistry_eq_none_iff (pyUpper (pyStrip ticker)) rows).mp hscan
    | some cik =>
      rw [hg, hscan]
      constructor
      · intro hcon
        exact absurd hcon (by simp)
      · intro hall
        exact absurd hscan (by rw [(scanRegistry_eq_none_iff _ rows).mpr hall]; simp)
  · intro pre r post hrows hpre hr
    rw [hg, hrows, scanRegistry_first (pyUpper (pyStrip ticker)) r post pre hpre hr]

/-- Witness for C5: the second registry record matches the padded, oddly
cased query, and the returned identifier is zero-filled to 10 digits. -/
theorem c5_identifier_resolver_witness :
    (get_cik_from_ticker envTie " MsFt ").1 = .ok "0000789019" := by
  have h := (c5_identifier_resolver envTie
      [⟨"NVDA", 1045810⟩, ⟨"msft", 789019⟩] " MsFt " rfl).2
      [⟨"NVDA", 1045810⟩] ⟨"msft", 789019⟩ [] rfl (by decide) (by decide)
  rw [h]
  rfl

/-! ### Filing Locator lemmas -/

lemma firstIdx_eq_none_iff (want : String) (forms : List String) :
    firstIdx want forms = none ↔ want ∉ forms := by
  induction forms with
  | nil => simp [firstIdx]
  | cons f fs ih =>
    by_cases h : f = want
    · simp [firstIdx, h]
    · simp [firstIdx, h, ih, Ne.symm h]

lemma firstIdx_mem {want : String} {forms : List String} {i : Nat}
    (h : firstIdx want forms = some i) : want ∈ forms := by
  by_contra hcon
  rw [(firstIdx_eq_none_iff want forms).mpr hcon] at h
  exact Option.noConfusion h

lemma firstIdx_lt_length {want : String} {i : Nat} :
    ∀ {forms : List String}, firstIdx want forms = some i → i < forms.length := by
  induction i with
  | zero =>
    intro forms h
    cases forms with
    | nil => exact Option.noConfusion h
    | cons f fs => simp
  | succ i ih =>
    intro forms h
    cases forms with
    | nil => exact Option.noConfusion h
    | cons f fs =>
      by_cases hf : f = want
      · rw [firstIdx, if_pos hf] at h
        exact Option.noConfusion h (fun heq => by omega)
      · rw [firstIdx, if_neg hf] at h
        cases hfs : firstIdx want fs with
        | none => rw [hfs] at h; exact Option.noConfusion h
        | some j =>
          rw [hfs] at h
          simp at h
          have hji : j = i := by omega
          rw [hji] at hfs
          have := ih hfs
          simp
          omega

lemma firstIdx_get {want : String} : ∀ {i : Nat} {forms : List String},
    firstIdx want forms = some i →
    forms.get? i = some want ∧ ∀ j < i, forms.get? j ≠ some want := by
  intro i
  induction i with
  | zero =>
    intro forms h
    cases forms with
    | nil => exact Option.noConfusion h
    | cons f fs =>
      by_cases hf : f = want
      · subst hf
        exact ⟨rfl, by omega⟩
      · rw [firstIdx, if_neg hf] at h
        cases hfs : firstIdx want fs with
        | none => rw [hfs] at h; exact Option.noConfusion h
        | some j => rw [hfs] at h; simp at h
  | succ i ih =>
    intro forms h
    cases forms with
    | nil => exact Option.noConfusion h
    | cons f fs =>
      by_cases hf : f = want
      · rw [firstIdx, if_pos hf] at h
        exact Option.noConfusion h (fun heq => by omega)
      · rw [firstIdx, if_neg hf] at h
        cases hfs : firstIdx want fs with
        | none => rw [hfs] at h; exact Option.noConfusion h
        | some j =>
          rw [hfs] at h
          simp at h
          have hji : j = i := by omega
          rw [hji] at hfs
          obtain ⟨h1, h2⟩ := ih hfs
          refine ⟨h1, ?_⟩
          intro k hk
          cases k with
          | zero =>
            intro hcon
            simp at hcon
            exact hf hcon
          | succ k =>
            have := h2 k (by omega)
            simpa using this

lemma firstIdx_of_first (want : String) : ∀ (i : Nat) (forms : List String),
    forms.get? i = some want → (∀ j < i, forms.get? j ≠ some want) →
    firstIdx want forms = some i := by
  intro i
  induction i with
  | zero =>
    intro forms h _
    cases forms with
    | nil => simp at h
    | cons f fs =>
      simp at h
      simp [firstIdx, h]
  | succ i ih =>
    intro forms h hmin
    cases forms with
    | nil => simp at h
    | cons f fs =>
      have hf : f ≠ want := by
        intro hcon
        exact hmin 0 (Nat.succ_pos i) (by simp [hcon])
      rw [firstIdx, if_neg hf,
        ih fs (by simpa using h)
          (fun j hj => by
            have := hmin (j + 1) (by omega)
            simpa using this)]
      rfl

lemma selectPreferred_eq_none_iff (forms : List String) :
    ∀ preferred, selectPreferred forms preferred = none ↔
      ∀ w ∈ preferred, w ∉ forms := by
  intro preferred
  induction preferred with
  | nil => simp [selectPreferred]
  | cons w ws ih =>
    cases hw : firstIdx w forms with
    | some i =>
      rw [selectPreferred, hw]
      simp only [List.mem_cons]
      constructor
      · intro hcon
        exact Option.noConfusion hcon
      · intro hall
        exact absurd (firstIdx_mem hw) (hall w (Or.inl rfl))
    | none =>
      rw [selectPreferred, hw]
      simp only [List.mem_cons, ih]
      constructor
      · intro hall x hx
        rcases hx with hx | hx
        · subst hx
          exact (firstIdx_eq_none_iff x forms).mp hw
        · exact hall x hx
      · intro hall x hx
        exact hall x (Or.inr hx)

lemma selectPreferred_some {forms : List String} {w : String} {i : Nat} :
    ∀ {preferred : List String}, selectPreferred forms preferred = some (w, i) →
      firstIdx w forms = some i ∧ w ∈ preferred := by
  intro preferred
  induction preferred with
  | nil => intro h; exact Option.noConfusion h
  | cons v vs ih =>
    intro h
    cases hv : firstIdx v forms with
    | some j =>
      rw [selectPreferred, hv] at h
      simp at h
      obtain ⟨rfl, rfl⟩ := h
      exact ⟨hv, by simp⟩
    | none =>
      rw [selectPreferred, hv] at h
      obtain ⟨h1, h2⟩ := ih h
      exact ⟨h1, by simp [h2]⟩

lemma selectPreferred_split (forms : List String) (w : String) (i : Nat)
    (post : List String) (hw : firstIdx w forms = some i) :
    ∀ pre : List String, (∀ x ∈ pre, x ∉ forms) →
      selectPreferred forms (pre ++ w :: post) = some (w, i) := by
  intro pre
  induction pre with
  | nil =>
    intro _
    rw [List.nil_append, selectPreferred, hw]
  | cons x xs ih =>
    intro hpre
    have hx : firstIdx x forms = none :=
      (firstIdx_eq_none_iff x forms).mpr (hpre x (by simp))
    rw [List.cons_append, selectPreferred, hx]
    exact ih (fun y hy => hpre y (by simp [hy]))

lemma get_latest_of_select_some (env : Env) (cik10 : String) (sub : Submission)
    (w : String) (i : Nat) (henv : env.submissionsResp cik10 = .ok sub)
    (hsel : selectPreferred sub.forms defaultPreferred = some (w, i))
    (hacc : i < sub.accessionNumbers.length) (hdoc : i < sub.primaryDocs.length)
    (hdate : i < sub.filingDates.length) :
    (get_latest_annual_info env cik10).1 = .ok
      ⟨sub.name, cik10, w, sub.accessionNumbers.get ⟨i, hacc⟩,
        sub.primaryDocs.get ⟨i, hdoc⟩, sub.filingDates.get ⟨i, hdate⟩⟩ := by
  simp only [get_latest_annual_info, henv, hsel, List.get?_eq_get hacc,
    List.get?_eq_get hdoc, List.get?_eq_get hdate]

lemma get_latest_of_select_none (env : Env) (cik10 : String) (sub : Submission)
    (henv : env.submissionsResp cik10 = .ok sub)
    (hsel : selectPreferred sub.forms defaultPreferred = none) :
    (get_latest_annual_info env cik10).1 = .error (.noAnnualFiling cik10) := by
  simp only [get_latest_annual_info, henv, hsel]

/-- C3: with the default preference list, the Filing Locator returns the
first occurrence, in the history's given order, of the earliest
preference-list form type present anywhere in the history — preference order
dominates recency order. `w` is the earliest preferred form present (every
preferred form before it is absent) and `i` the first index carrying `w`. -/
theorem c3_locator_preference_dominates (env : Env) (cik10 : String)
    (sub : Submission) (w : String) (i : Nat) (pre post : List String)
    (henv : env.submissionsResp cik10 = .ok sub)
    (hsplit : defaultPreferred = pre ++ w :: post)
    (hpre : ∀ x ∈ pre, x ∉ sub.forms)
    (hi : sub.forms.get? i = some w)
    (hmin : ∀ j < i, sub.forms.get? j ≠ some w)
    (hacc : i < sub.accessionNumbers.length)
    (hdoc : i < sub.primaryDocs.length)
    (hdate : i < sub.filingDates.length) :
    (get_latest_annual_info env cik10).1 = .ok
      ⟨sub.name, cik10, w, sub.accessionNumbers.get ⟨i, hacc⟩,
        sub.primaryDocs.get ⟨i, hdoc⟩, sub.filingDates.get ⟨i, hdate⟩⟩ := by
  have hidx : firstIdx w sub.forms = some i := firstIdx_of_first w i sub.forms hi hmin
  have hsel : selectPreferred sub.forms defaultPreferred = some (w, i) := by
    rw [hsplit]
    exact selectPreferred_split sub.forms w i post hidx pre hpre
  exact get_latest_of_select_some env cik10 sub w i henv hsel hacc hdoc hdate

/-- Witness for C3: the spec's tie-break example. The history lists a newer
10-K/A before an older 10-K; the locator returns the older 10-K entry, not
the more recent amendment. -/
theorem c3_locator_preference_dominates_witness :
    (get_latest_annual_info envTie "0001045810").1 = .ok
      ⟨"NVIDIA CORP", "0001045810", "10-K", "0001045810-24-000001",
        "nvda-10k.htm", "2024-02-21"⟩ :=
  c3_locator_preference_dominates envTie "0001045810" subTie "10-K" 1 []
    ["20-F", "40-F", "10-K/A", "20-F/A"] rfl rfl (by decide) (by decide)
    (by decide) (by decide) (by decide) (by decide)

/-- Counterexample to C4 as stated: a history whose form array contains a
preferred form but whose companion arrays are empty (as when the upstream
document lacks those keys). The locator neither raises
`NoAnnualFilingFound` nor returns a record — it raises `IndexError`. -/
theorem c4_counterexample :
    "10-K" ∈ defaultPreferred ∧ "10-K" ∈ subShort.forms ∧
    envShort.submissionsResp "0000000001" = .ok subShort ∧
    (get_latest_annual_info envShort "0000000001").1 = .error .indexError := by
  refine ⟨by decide, by decide, rfl, ?_⟩
  rfl

/-- C4 (amended): provided the companion arrays are each at least as long as
the form array, the Filing Locator fails with `NoAnnualFilingFound` exactly
when no preference-list form type appears anywhere in the history's form
array, and otherwise returns a `FilingInfo` record. -/
theorem c4_locator_error_iff (env : Env) (cik10 : String) (sub : Submission)
    (henv : env.submissionsResp cik10 = .ok sub)
    (hacc : sub.forms.length ≤ sub.accessionNumbers.length)
    (hdoc : sub.forms.length ≤ sub.primaryDocs.length)
    (hdate : sub.forms.length ≤ sub.filingDates.length) :
    ((get_latest_annual_info env cik10).1 = .error (.noAnnualFiling cik10) ↔
      ∀ w ∈ defaultPreferred, w ∉ sub.forms) ∧
    ((∃ w ∈ defaultPreferred, w ∈ sub.forms) →
      ∃ info, (get_latest_annual_info env cik10).1 = .ok info) := by
  cases hsel : selectPreferred sub.forms defaultPreferred with
  | none =>
    have hres := get_latest_of_select_none env cik10 sub henv hsel
    have hnone := (selectPreferred_eq_none_iff sub.forms defaultPreferred).mp hsel
    constructor
    · rw [hres]
      simpa using hnone
    · rintro ⟨w, hw, hmem⟩
      exact absurd hmem (hnone w hw)
  | some wi =>
    obtain ⟨w, i⟩ := wi
    obtain ⟨hidx, hwpref⟩ := selectPreferred_some hsel
    have hlt : i < sub.forms.length := firstIdx_lt_length hidx
    have hres := get_latest_of_select_some env cik10 sub w i henv hsel
      (by omega) (by omega) (by omega)
    constructor
    · rw [hres]
      constructor
      · intro hcon
        exact absurd hcon (by simp)
      · intro hall
        exact absurd (firstIdx_mem hidx) (hall w hwpref)
    · intro _
      exact ⟨_, hres⟩

/-- Witness for C4 (amended) at the tie-break history: a preferred form is
present and the locator returns a record; the `NoAnnualFilingFound` error
does not occur. -/
theorem c4_locator_error_iff_witness :
    ¬((get_latest_annual_info envTie "0001045810").1 =
        .error (.noAnnualFiling "0001045810")) ∧
    (∃ info, (get_latest_annual_info envTie "0001045810").1 = .ok info) := by
  have h := c4_locator_error_iff envTie "0001045810" subTie rfl
    (by decide) (by decide) (by decide)
  refine ⟨?_, h.2 ⟨"10-K", by decide, by decide⟩⟩
  intro hcon
  exact absurd ((h.1).mp hcon "10-K" (by decide)) (by decide)

/-- C9: when each companion array is at least as long as the form array,
every index access of the Filing Locator is in bounds and the function is
total — it returns a record or raises `NoAnnualFilingFound`; without that
precondition the access is unguarded, and a history with a two-entry form
array but a one-entry accession array makes it raise `IndexError`. -/
theorem c9_locator_bounds :
    (∀ (env : Env) (cik10 : String) (sub : Submission),
      env.submissionsResp cik10 = .ok sub →
      sub.forms.length ≤ sub.accessionNumbers.length →
      sub.forms.length ≤ sub.primaryDocs.length →
      sub.forms.length ≤ sub.filingDates.length →
      (∃ info, (get_latest_annual_info env cik10).1 = .ok info) ∨
        (get_latest_annual_info env cik10).1 = .error (.noAnnualFiling cik10)) ∧
    (get_latest_annual_info envShort2 "0000000002").1 = .error .indexError := by
  constructor
  · intro env cik10 sub henv hacc hdoc hdate
    cases hsel : selectPreferred sub.forms defaultPreferred with
    | none => exact Or.inr (get_latest_of_select_none env cik10 sub henv hsel)
    | some wi =>
      obtain ⟨w, i⟩ := wi
      obtain ⟨hidx, _⟩ := selectPreferred_some hsel
      have hlt : i < sub.forms.length := firstIdx_lt_length hidx
      exact Or.inl ⟨_, get_latest_of_select_some env cik10 sub w i henv hsel
        (by omega) (by omega) (by omega)⟩
  · rfl

/-- Witness for C9 at the tie-break history: the totality disjunction holds
with a record being returned. -/
theorem c9_locator_bounds_witness :
    (∃ info, (get_latest_annual_info envTie "0001045810").1 = .ok info) ∨
      (get_latest_annual_info envTie "0001045810").1 =
        .error (.noAnnualFiling "0001045810") :=
  c9_locator_bounds.1 envTie "0001045810" subTie rfl (by decide) (by decide)
    (by decide)

/-! ### Name Sanitizer lemmas -/

lemma isBadChar_subBad (c : Char) : isBadChar (subBad c) = false := by
  by_cases h : isBadChar c
  · rw [subBad, if_pos h]
    decide
  · rw [subBad, if_neg h]
    simpa using h

lemma subBad_eq_self {c : Char} (h : isBadChar c = false) : subBad c = c := by
  rw [subBad, if_neg (by simp [h])]

lemma mem_collapseWsAux {x : Char} :
    ∀ (b : Bool) (l : List Char), x ∈ collapseWsAux b l → x ∈ l ∨ x = ' ' := by
  intro b l
  induction l generalizing b with
  | nil =>
    intro h
    simp [collapseWsAux] at h
  | cons c cs ih =>
    intro h
    by_cases hc : isPySpace c
    · cases b with
      | true =>
        rw [show collapseWsAux true (c :: cs) = collapseWsAux true cs from by
          simp [collapseWsAux, hc]] at h
        rcases ih true h with h | h
        · exact Or.inl (by simp [h])
        · exact Or.inr h
      | false =>
        rw [show collapseWsAux false (c :: cs) = ' ' :: collapseWsAux true cs from by
          simp [collapseWsAux, hc]] at h
        rcases List.mem_cons.mp h with h | h
        · exact Or.inr h
        · rcases ih true h with h | h
          · exact Or.inl (by simp [h])
          · exact Or.inr h
    · rw [show collapseWsAux b (c :: cs) = c :: collapseWsAux false cs from by
        simp [collapseWsAux, hc]] at h
      rcases List.mem_cons.mp h with h | h
      · exact Or.inl (by simp [h])
      · rcases ih false h with h | h
        · exact Or.inl (by simp [h])
        · exact Or.inr h

lemma wsOnlySpace_collapseWsAux :
    ∀ (b : Bool) (l : List Char), ∀ x ∈ collapseWsAux b l,
      isPySpace x = true → x = ' ' := by
  intro b l
  induction l generalizing b with
  | nil =>
    intro x hx
    simp [collapseWsAux] at hx
  | cons c cs ih =>
    intro x hx hws
    by_cases hc : isPySpace c
    · cases b with
      | true =>
        rw [show collapseWsAux true (c :: cs) = collapseWsAux true cs from by
          simp [collapseWsAux, hc]] at hx
        exact ih true x hx hws
      | false =>
        rw [show collapseWsAux false (c :: cs) = ' ' :: collapseWsAux true cs from by
          simp [collapseWsAux, hc]] at hx
        rcases List.mem_cons.mp hx with hx | hx
        · exact hx
        · exact ih true x hx hws
    · rw [show collapseWsAux b (c :: cs) = c :: collapseWsAux false cs from by
        simp [collapseWsAux, hc]] at hx
      rcases List.mem_cons.mp hx with hx | hx
      · subst hx
        exact absurd hws (by simpa using hc)
      · exact ih false x hx hws

lemma head_collapseWsAux_true (l : List Char) :
    ∀ x, (collapseWsAux true l).head? = some x → isPySpace x = false := by
  induction l with
  | nil =>
    intro x h
    simp [collapseWsAux] at h
  | cons c cs ih =>
    intro x h
    by_cases hc : isPySpace c
    · rw [show collapseWsAux true (c :: cs) = collapseWsAux true cs from by
        simp [collapseWsAux, hc]] at h
      exact ih x h
    · rw [show collapseWsAux true (c :: cs) = c :: collapseWsAux false cs from by
        simp [collapseWsAux, hc]] at h
      simp at h
      rw [← h]
      simpa using hc

lemma chain'_collapseWsAux :
    ∀ (b : Bool) (l : List Char), (collapseWsAux b l).Chain' noWsPair := by
  intro b l
  induction l generalizing b with
  | nil => simp [collapseWsAux]
  | cons c cs ih =>
    by_cases hc : isPySpace c
    · cases b with
      | true =>
        rw [show collapseWsAux true (c :: cs) = collapseWsAux true cs from by
          simp [collapseWsAux, hc]]
        exact ih true
      | false =>
        rw [show collapseWsAux false (c :: cs) = ' ' :: collapseWsAux true cs from by
          simp [collapseWsAux, hc]]
        rw [List.chain'_cons']
        refine ⟨?_, ih true⟩
        intro y hy hcon
        exact absurd hcon.2 (by simp [head_collapseWsAux_true cs y hy])
    · rw [show collapseWsAux b (c :: cs) = c :: collapseWsAux false cs from by
        simp [collapseWsAux, hc]]
      rw [List.chain'_cons']
      refine ⟨?_, ih false⟩
      intro y _ hcon
      exact absurd hcon.1 (by simpa using hc)

lemma chain'_reverse_noWsPair {l : List Char} (h : l.Chain' noWsPair) :
    l.reverse.Chain' noWsPair := by
  rw [List.chain'_reverse]
  exact h.imp (fun a b hab hcon => hab ⟨hcon.2, hcon.1⟩)

lemma chain'_stripChars {l : List Char} (h : l.Chain' noWsPair) :
    (stripChars l).Chain' noWsPair := by
  unfold stripChars
  exact chain'_reverse_noWsPair
    (((chain'_reverse_noWsPair (h.suffix (List.dropWhile_suffix _))).suffix
      (List.dropWhile_suffix _)))

lemma mem_of_stripChars {x : Char} {l : List Char} (h : x ∈ stripChars l) :
    x ∈ l := by
  unfold stripChars at h
  rw [List.mem_reverse] at h
  have h1 := (List.dropWhile_suffix isPySpace).sublist.mem h
  rw [List.mem_reverse] at h1
  exact (List.dropWhile_suffix isPySpace).sublist.mem h1

lemma collapseWsAux_eq_self : ∀ l : List Char,
    (∀ x ∈ l, isPySpace x = true → x = ' ') → l.Chain' noWsPair →
    collapseWsAux false l = l ∧
    ((∀ x, l.head? = some x → isPySpace x = false) → collapseWsAux true l = l) := by
  intro l
  induction l with
  | nil => intro _ _; exact ⟨rfl, fun _ => rfl⟩
  | cons c cs ih =>
    intro hws hch
    have hcs := ih (fun x hx => hws x (by simp [hx])) hch.tail
    by_cases hc : isPySpace c
    · have hceq : c = ' ' := hws c (by simp) hc
      have hhead : ∀ x, cs.head? = some x → isPySpace x = false := by
        intro x hx
        have hr := (List.chain'_cons'.mp hch).1 x hx
        by_contra hcon
        exact hr ⟨hc, by simpa using hcon⟩
      constructor
      · rw [show collapseWsAux false (c :: cs) = ' ' :: collapseWsAux true cs from by
          simp [collapseWsAux, hc]]
        rw [hcs.2 hhead, hceq]
      · intro hhd
        exact absurd (hhd c (by simp)) (by simp [hc])
    · constructor
      · rw [show collapseWsAux false (c :: cs) = c :: collapseWsAux false cs from by
          simp [collapseWsAux, hc]]
        rw [hcs.1]
      · intro _
        rw [show collapseWsAux true (c :: cs) = c :: collapseWsAux false cs from by
          simp [collapseWsAux, hc]]
        rw [hcs.1]

lemma stripChars_eq_self {l : List Char}
    (h1 : ∀ x, l.head? = some x → isPySpace x = false)
    (h2 : ∀ x, l.reverse.head? = some x → isPySpace x = false) :
    stripChars l = l := by
  unfold stripChars
  rw [dropWhile_eq_self_of_noLead _ _ h1, dropWhile_eq_self_of_noLead _ _ h2,
    List.reverse_reverse]

/-- C8: the Name Sanitizer is idempotent — sanitizing an already-sanitized
string returns it unchanged. -/
theorem c8_sanitizer_idempotent (s : String) :
    safeFilename (safeFilename s) = safeFilename s := by
  apply String.ext
  show stripChars (collapseWsAux false
      ((stripChars (collapseWsAux false (s.data.map subBad))).map subBad)) =
    stripChars (collapseWsAux false (s.data.map subBad))
  set out := stripChars (collapseWsAux false (s.data.map subBad)) with hout
  have hnb : ∀ x ∈ out, isBadChar x = false := by
    intro x hx
    rcases mem_collapseWsAux false _ (mem_of_stripChars hx) with hm | hm
    · obtain ⟨y, _, rfl⟩ := List.mem_map.mp hm
      exact isBadChar_subBad y
    · rw [hm]
      decide
  have hmap : out.map subBad = out := by
    have : out.map subBad = out.map id :=
      List.map_congr_left (fun x hx => subBad_eq_self (hnb x hx))
    rw [this, List.map_id]
  have hws : ∀ x ∈ out, isPySpace x = true → x = ' ' := fun x hx =>
    wsOnlySpace_collapseWsAux false _ x (mem_of_stripChars hx)
  have hch : out.Chain' noWsPair :=
    chain'_stripChars (chain'_collapseWsAux false _)
  have hhd : ∀ x, out.head? = some x → isPySpace x = false := by
    intro x hx
    have := stripChars_noLead (collapseWsAux false (s.data.map subBad)) x hx
    exact this
  have htl : ∀ x, out.reverse.head? = some x → isPySpace x = false := by
    intro x hx
    exact stripChars_noTrail (collapseWsAux false (s.data.map subBad)) x hx
  rw [hmap, (collapseWsAux_eq_self out hws hch).1, stripChars_eq_self hhd htl]

/-! ### Path Deduplicator lemmas -/

lemma candPath_inj {base ext : String} {i j : Nat}
    (h : candPath base ext i = candPath base ext j) : i = j := by
  unfold candPath at h
  have hdata := congrArg String.data h
  simp only [String.data_append] at hdata
  have h1 := List.append_cancel_right hdata
  have h2 := List.append_cancel_left h1
  exact pyStrNat_inj (String.ext h2)

lemma nodup_cands_le (fsys : List String) (base ext : String) (n : Nat)
    (h : ∀ m < n, candPath base ext (1 + m) ∈ fsys) : n ≤ fsys.length := by
  set cands := (List.range n).map (fun m => candPath base ext (1 + m)) with hc
  have hnodup : cands.Nodup := by
    apply List.Nodup.map ?_ (List.nodup_range n)
    intro a b hab
    have := candPath_inj hab
    omega
  have hsub : cands.toFinset ⊆ fsys.toFinset := by
    intro x hx
    rw [List.mem_toFinset] at hx
    obtain ⟨m, hm, rfl⟩ := List.mem_map.mp hx
    rw [List.mem_toFinset]
    exact h m (List.mem_range.mp hm)
  have h1 : cands.toFinset.card = n := by
    rw [List.toFinset_card_of_nodup hnodup, hc, List.length_map, List.length_range]
  have h2 := Finset.card_le_card hsub
  have h3 := fsys.toFinset_card_le
  omega

lemma exists_free_in_range (fsys : List String) (base ext : String) :
    ∃ m, m < fsys.length + 1 ∧ candPath base ext (1 + m) ∉ fsys := by
  by_contra hcon
  push_neg at hcon
  have := nodup_cands_le fsys base ext (fsys.length + 1) hcon
  omega

lemma uniqueLoop_not_mem (fsys : List String) (base ext : String) :
    ∀ (fuel i : Nat), (∃ m, m < fuel ∧ candPath base ext (i + m) ∉ fsys) →
      uniqueLoop fsys base ext i fuel ∉ fsys := by
  intro fuel
  induction fuel with
  | zero =>
    rintro i ⟨m, hm, _⟩
    omega
  | succ fuel ih =>
    rintro i ⟨m, hm, hfree⟩
    simp only [uniqueLoop]
    by_cases hi : candPath base ext i ∈ fsys
    · rw [if_pos hi]
      apply ih (i + 1)
      cases m with
      | zero => exact absurd hi (by simpa using hfree)
      | succ m =>
        exact ⟨m, by omega, by
          rw [show i + 1 + m = i + (m + 1) from by omega]
          exact hfree⟩
    · rw [if_neg hi]
      exact hi

lemma uniqueLoop_first_free (fsys : List String) (base ext : String) :
    ∀ (fuel i m : Nat), m < fuel →
      (∀ k, i ≤ k → k < i + m → candPath base ext k ∈ fsys) →
      candPath base ext (i + m) ∉ fsys →
      uniqueLoop fsys base ext i fuel = candPath base ext (i + m) := by
  intro fuel
  induction fuel with
  | zero =>
    intro i m hm
    omega
  | succ fuel ih =>
    intro i m hm hall hfree
    simp only [uniqueLoop]
    cases m with
    | zero =>
      rw [if_neg (by simpa using hfree), Nat.add_zero]
    | succ m =>
      have hi : candPath base ext i ∈ fsys := hall i le_rfl (by omega)
      rw [if_pos hi,
        ih (i + 1) m (by omega)
          (fun k hk1 hk2 => hall k (by omega) (by omega))
          (by rw [show i + 1 + m = i + (m + 1) from by omega]; exact hfree),
        show i + 1 + m = i + (m + 1) from by omega]

/-- C7: the Path Deduplicator returns the candidate path unchanged when no
file exists at it; when the path and the candidates with suffixes 1 through
N-1 all exist and the suffix-N candidate is free, it returns the suffix-N
candidate; and over the finite set of existing paths the returned path never
exists. -/
theorem c7_unique_path (fsys : List String) (path : String) :
    (path ∉ fsys → uniquePath fsys path = path) ∧
    (∀ N, 1 ≤ N → path ∈ fsys →
      (∀ k, 1 ≤ k → k < N → candPath (splitext path).1 (splitext path).2 k ∈ fsys) →
      candPath (splitext path).1 (splitext path).2 N ∉ fsys →
      uniquePath fsys path = candPath (splitext path).1 (splitext path).2 N) ∧
    uniquePath fsys path ∉ fsys := by
  refine ⟨?_, ?_, ?_⟩
  · intro h
    rw [uniquePath, if_neg h]
  · intro N hN hmem hall hfree
    rw [uniquePath, if_pos hmem]
    have hbound : N - 1 ≤ fsys.length :=
      nodup_cands_le fsys (splitext path).1 (splitext path).2 (N - 1)
        (fun m hm => hall (1 + m) (by omega) (by omega))
    have := uniqueLoop_first_free fsys (splitext path).1 (splitext path).2
      (fsys.length + 1) 1 (N - 1) (by omega)
      (fun k hk1 hk2 => hall k hk1 (by omega))
      (by rw [show 1 + (N - 1) = N from by omega]; exact hfree)
    rw [this, show 1 + (N - 1) = N from by omega]
  · by_cases hmem : path ∈ fsys
    · rw [uniquePath, if_pos hmem]
      apply uniqueLoop_not_mem
      obtain ⟨m, hm, hfree⟩ :=
        exists_free_in_range fsys (splitext path).1 (splitext path).2
      exact ⟨m, hm, hfree⟩
    · rw [uniquePath, if_neg hmem]
      exact hmem

/-- Witness for C7: with `f.txt` and `f_1.txt` both existing, the
deduplicator returns `f_2.txt`, which does not exist. -/
theorem c7_unique_path_witness :
    uniquePath ["f.txt", "f_1.txt"] "f.txt" = "f_2.txt" ∧
    uniquePath ["f.txt", "f_1.txt"] "f.txt" ∉ ["f.txt", "f_1.txt"] := by
  constructor
  · have h := (c7_unique_path ["f.txt", "f_1.txt"] "f.txt").2.1 2 (by decide)
      (by decide) (by decide) (by decide)
    rw [h]
    rfl
  · exact (c7_unique_path ["f.txt", "f_1.txt"] "f.txt").2.2

/-! ### Filing Fetcher lemmas -/

/-- C10: `download_latest_10k` normalizes its own ticker argument, so calling
it with `t` is behaviorally identical to calling it with
`t.strip().upper()` — same outcome, same requests, same filesystem effect. -/
theorem c10_download_normalizes_ticker (env : Env) (fsys : List String)
    (ticker save_folder kind : String) (make_sub : Bool) :
    download_latest_10k env fsys ticker save_folder kind make_sub =
      download_latest_10k env fsys (pyUpper (pyStrip ticker)) save_folder kind
        make_sub := by
  simp only [download_latest_10k, normTicker_idem]

/-- Counterexample to C2 as stated: with an unrecognised kind selector
`"pdf"` and a registry that does not list the ticker, the call fails with
`NotFound` — not `InvalidKind` — and a network request (the registry fetch)
has been issued. -/
theorem c2_counterexample :
    "pdf" ≠ "primary_html" ∧ "pdf" ≠ "full_submission_zip" ∧
    (download_latest_10k envShort [] "NVDA" "out" "pdf" true).1 =
      .error (.notFound "NVDA") ∧
    (download_latest_10k envShort [] "NVDA" "out" "pdf" true).2.1 =
      [registryUrl] := by
  refine ⟨by decide, by decide, rfl, rfl⟩

/-- C2 (amended): for every invalid kind selector, once the identifier
resolution and the filing-history lookup succeed, the Filing Fetcher fails
with `InvalidKind` before the document download request is issued: the
requests made are exactly the two lookup requests, so the error comes after
those but before any document request. -/
theorem c2_invalid_kind_after_lookups (env : Env) (fsys : List String)
    (ticker save_folder kind : String) (make_sub : Bool)
    (cik10 : String) (info : FilingInfo)
    (h1 : kind ≠ "primary_html") (h2 : kind ≠ "full_submission_zip")
    (hcik : get_cik_from_ticker env (pyUpper (pyStrip ticker)) =
      (.ok cik10, [registryUrl]))
    (hinfo : get_latest_annual_info env cik10 =
      (.ok info, [submissionsUrl cik10])) :
    (download_latest_10k env fsys ticker save_folder kind make_sub).1 =
      .error .invalidKind ∧
    (download_latest_10k env fsys ticker save_folder kind make_sub).2.1 =
      [registryUrl, submissionsUrl cik10] := by
  have hd : download_latest_10k env fsys ticker save_folder kind make_sub =
      (.error .invalidKind, [registryUrl, submissionsUrl cik10],
        (if make_sub then pyJoin (env.expanduser save_folder) (pyUpper (pyStrip ticker))
          else env.expanduser save_folder) :: fsys) := by
    simp only [download_latest_10k, hcik, hinfo, if_neg h1, if_neg h2]
    rfl
  rw [hd]
  exact ⟨rfl, rfl⟩

/-- Witness for C2 (amended): under the concrete environment the `"pdf"`
kind fails with `InvalidKind` after exactly the two lookup requests. -/
theorem c2_invalid_kind_after_lookups_witness :
    (download_latest_10k envTie [] "nvda" "out" "pdf" true).1 =
      .error .invalidKind ∧
    (download_latest_10k envTie [] "nvda" "out" "pdf" true).2.1 =
      [registryUrl, submissionsUrl "0001045810"] :=
  c2_invalid_kind_after_lookups envTie [] "nvda" "out" "pdf" true "0001045810"
    ⟨"NVIDIA CORP", "0001045810", "10-K", "0001045810-24-000001",
      "nvda-10k.htm", "2024-02-21"⟩
    (by decide) (by decide) rfl rfl

/-! ### Batch Orchestrator lemmas -/

lemma batchGo_cons_ok {env : Env} {sf kind : String} {ms : Bool}
    {t : String} {ts fsys : List String} {acc : BatchResult} {path : String}
    {reqs fs2 : List String}
    (h : download_latest_10k env fsys t sf kind ms = (.ok path, reqs, fs2)) :
    batchGo env sf kind ms (t :: ts) fsys acc =
      batchGo env sf kind ms ts fs2 ⟨acc.saved ++ [(t, path)], acc.failed⟩ := by
  simp only [batchGo, h]

lemma batchGo_cons_err {env : Env} {sf kind : String} {ms : Bool}
    {t : String} {ts fsys : List String} {acc : BatchResult} {e : Err}
    {reqs fs2 : List String}
    (h : download_latest_10k env fsys t sf kind ms = (.error e, reqs, fs2)) :
    batchGo env sf kind ms (t :: ts) fsys acc =
      batchGo env sf kind ms ts fs2 ⟨acc.saved, acc.failed ++ [(t, errStr e)]⟩ := by
  simp only [batchGo, h]

lemma batchGo_keys (env : Env) (sf kind : String) (ms : Bool) :
    ∀ (ts fsys : List String) (acc : BatchResult) (t : String),
      (t ∈ ((batchGo env sf kind ms ts fsys acc).1.saved.map Prod.fst) ∨
        t ∈ ((batchGo env sf kind ms ts fsys acc).1.failed.map Prod.fst)) ↔
      (t ∈ acc.saved.map Prod.fst ∨ t ∈ acc.failed.map Prod.fst ∨ t ∈ ts) := by
  intro ts
  induction ts with
  | nil =>
    intro fsys acc t
    simp [batchGo]
  | cons t' ts ih =>
    intro fsys acc t
    cases hdl : download_latest_10k env fsys t' sf kind ms with
    | mk res rest =>
      cases rest with
      | mk reqs fs2 =>
        cases res with
        | ok path =>
          rw [batchGo_cons_ok hdl, ih]
          simp only [List.map_append, List.mem_append, List.map_cons, List.map_nil,
            List.mem_singleton, List.mem_cons]
          constructor
          · rintro ((h | h) | h | h) <;> tauto
          · rintro (h | h | h | h) <;> tauto
        | error e =>
          rw [batchGo_cons_err hdl, ih]
          simp only [List.map_append, List.mem_append, List.map_cons, List.map_nil,
            List.mem_singleton, List.mem_cons]
          constructor
          · rintro (h | (h | h) | h) <;> tauto
          · rintro (h | h | h | h) <;> tauto

lemma batchGo_disjoint (env : Env) (sf kind : String) (ms : Bool) :
    ∀ (ts fsys : List String) (acc : BatchResult), ts.Nodup →
      (∀ t ∈ ts, t ∉ acc.saved.map Prod.fst ∧ t ∉ acc.failed.map Prod.fst) →
      (∀ t, ¬(t ∈ acc.saved.map Prod.fst ∧ t ∈ acc.failed.map Prod.fst)) →
      ∀ t, ¬(t ∈ ((batchGo env sf kind ms ts fsys acc).1.saved.map Prod.fst) ∧
          t ∈ ((batchGo env sf kind ms ts fsys acc).1.failed.map Prod.fst)) := by
  intro ts
  induction ts with
  | nil =>
    intro fsys acc _ _ hdisj t
    simpa [batchGo] using hdisj t
  | cons t' ts ih =>
    intro fsys acc hnd hfresh hdisj t
    have hnd' : ts.Nodup := (List.nodup_cons.mp hnd).2
    have ht' : t' ∉ ts := (List.nodup_cons.mp hnd).1
    cases hdl : download_latest_10k env fsys t' sf kind ms with
    | mk res rest =>
      cases rest with
      | mk reqs fs2 =>
        cases res with
        | ok path =>
          rw [batchGo_cons_ok hdl]
          apply ih fs2 _ hnd'
          · intro u hu
            obtain ⟨hs, hf⟩ := hfresh u (by simp [hu])
            refine ⟨?_, hf⟩
            simp only [List.map_append, List.mem_append, List.map_cons, List.map_nil,
              List.mem_singleton]
            rintro (h | h)
            · exact hs h
            · subst h
              exact ht' hu
          · intro u
            rintro ⟨hsav, hfail⟩
            simp only [List.map_append, List.mem_append, List.map_cons, List.map_nil,
              List.mem_singleton] at hsav
            rcases hsav with h | h
            · exact hdisj u ⟨h, hfail⟩
            · subst h
              exact (hfresh u (by simp)).2 hfail
        | error e =>
          rw [batchGo_cons_err hdl]
          apply ih fs2 _ hnd'
          · intro u hu
            obtain ⟨hs, hf⟩ := hfresh u (by simp [hu])
            refine ⟨hs, ?_⟩
            simp only [List.map_append, List.mem_append, List.map_cons, List.map_nil,
              List.mem_singleton]
            rintro (h | h)
            · exact hf h
            · subst h
              exact ht' hu
          · intro u
            rintro ⟨hsav, hfail⟩
            simp only [List.map_append, List.mem_append, List.map_cons, List.map_nil,
              List.mem_singleton] at hfail
            rcases hfail with h | h
            · exact hdisj u ⟨hsav, h⟩
            · subst h
              exact (hfresh u (by simp)).1 hsav

lemma batchGo_failed_provenance (env : Env) (sf kind : String) (ms : Bool) :
    ∀ (ts fsys : List String) (acc : BatchResult),
      (∀ p ∈ acc.failed, ∃ fs2 e,
        (download_latest_10k env fs2 p.1 sf kind ms).1 = .error e ∧
          p.2 = errStr e) →
      ∀ p ∈ (batchGo env sf kind ms ts fsys acc).1.failed, ∃ fs2 e,
        (download_latest_10k env fs2 p.1 sf kind ms).1 = .error e ∧
          p.2 = errStr e := by
  intro ts
  induction ts with
  | nil =>
    intro fsys acc hacc p hp
    exact hacc p hp
  | cons t' ts ih =>
    intro fsys acc hacc p hp
    cases hdl : download_latest_10k env fsys t' sf kind ms with
    | mk res rest =>
      cases rest with
      | mk reqs fs2 =>
        cases res with
        | ok path =>
          rw [batchGo_cons_ok hdl] at hp
          exact ih fs2 ⟨acc.saved ++ [(t', path)], acc.failed⟩ hacc p hp
        | error e =>
          rw [batchGo_cons_err hdl] at hp
          refine ih fs2 _ ?_ p hp
          intro q hq
          rcases List.mem_append.mp hq with hq | hq
          · exact hacc q hq
          · rw [List.mem_singleton.mp hq]
            exact ⟨fsys, e, by rw [hdl], rfl⟩

/-- C1: after `batch_download_10k` completes, every ticker of the normalized
input list appears as a key in exactly one of the `saved` and `failed` maps
(jointly exhaustive and disjoint), and every `failed` entry is the string
description of an error that `download_latest_10k` returned for that ticker
— no error propagates out of the batch call, which always returns a
`BatchResult`. -/
theorem c1_batch_partition (env : Env) (fsys : List String)
    (tickers : TickersInput) (save_folder kind : String) (make_sub : Bool) :
    (∀ t,
      (t ∈ ((batch_download_10k env fsys tickers save_folder kind make_sub).1.saved.map Prod.fst) ∨
        t ∈ ((batch_download_10k env fsys tickers save_folder kind make_sub).1.failed.map Prod.fst)) ↔
      t ∈ normalizeTickers tickers) ∧
    (∀ t, ¬(t ∈ ((batch_download_10k env fsys tickers save_folder kind make_sub).1.saved.map Prod.fst) ∧
        t ∈ ((batch_download_10k env fsys tickers save_folder kind make_sub).1.failed.map Prod.fst))) ∧
    (∀ p ∈ (batch_download_10k env fsys tickers save_folder kind make_sub).1.failed,
      ∃ fs2 e, (download_latest_10k env fs2 p.1 save_folder kind make_sub).1 =
          .error e ∧ p.2 = errStr e) := by
  have hnodup : (normalizeTickers tickers).Nodup := by
    rw [normalizeTickers_eq_firstOccurrences]
    exact nodup_firstOccurrences _
  refine ⟨?_, ?_, ?_⟩
  · intro t
    have h := batchGo_keys env save_folder kind make_sub
      (normalizeTickers tickers) fsys ⟨[], []⟩ t
    simpa [batch_download_10k] using h
  · intro t
    have h := batchGo_disjoint env save_folder kind make_sub
      (normalizeTickers tickers) fsys ⟨[], []⟩ hnodup
      (by intro u _; exact ⟨by simp, by simp⟩) (by intro u; simp) t
    simpa [batch_download_10k] using h
  · intro p hp
    refine batchGo_failed_provenance env save_folder kind make_sub
      (normalizeTickers tickers) fsys ⟨[], []⟩ ?_ p ?_
    · intro q hq
      simp at hq
    · simpa [batch_download_10k] using hp

/-- Witness for C1: in a concrete batch of one resolvable and one unknown
ticker, the resolvable ticker lands in one of the maps, the unknown ticker
is not in both, and its `failed` entry is the string description of the
`NotFound` error the fetcher produced. -/
theorem c1_batch_partition_witness :
    ("NVDA" ∈ ((batch_download_10k envTie [] (.str "nvda, ZZZ") "out"
        "primary_html" true).1.saved.map Prod.fst) ∨
      "NVDA" ∈ ((batch_download_10k envTie [] (.str "nvda, ZZZ") "out"
        "primary_html" true).1.failed.map Prod.fst)) ∧
    ¬("ZZZ" ∈ ((batch_download_10k envTie [] (.str "nvda, ZZZ") "out"
        "primary_html" true).1.saved.map Prod.fst) ∧
      "ZZZ" ∈ ((batch_download_10k envTie [] (.str "nvda, ZZZ") "out"
        "primary_html" true).1.failed.map Prod.fst)) ∧
    (∃ fs2 e, (download_latest_10k envTie fs2 "ZZZ" "out" "primary_html"
        true).1 = .error e ∧
      "Ticker not found in SEC mapping: ZZZ" = errStr e) := by
  refine ⟨?_, ?_, ?_⟩
  · exact ((c1_batch_partition envTie [] (.str "nvda, ZZZ") "out"
      "primary_html" true).1 "NVDA").mpr (by decide)
  · exact (c1_batch_partition envTie [] (.str "nvda, ZZZ") "out"
      "primary_html" true).2.1 "ZZZ"
  · exact (c1_batch_partition envTie [] (.str "nvda, ZZZ") "out"
      "primary_html" true).2.2
      ("ZZZ", "Ticker not found in SEC mapping: ZZZ") (by decide)

end ValueFinder
